import Mathlib

/-!
Verification of the `hibp` crate (src/lib.rs): a HaveIBeenPwned password
check client.  The source pipeline is

  check(password) = let hash = hash(password)
                    fetch https://.../range/{hash.0}        -- transport
                    Regex::new("{hash.1}:(\d+)")            -- pattern
                    match reg.captures(&response) ...       -- match + parse

We embed the pure core: `hash` (SHA-1 digest, uppercase hex, split 5/35)
and the response-matching logic of `check`.  The HTTP transport
(`reqwest::get`) is an external collaborator; it is modelled by passing the
successful response body to `check` as an explicit argument, so the
`Error::Reqwest` branch is a constructor of the result type that the
embedded `check` never produces.

Modelling notes, stated once here:
* Machine integers: the count is parsed into an `i32`; `"...".parse::<i32>()`
  on a string of decimal digits succeeds exactly when the value is at most
  2147483647, and never yields a negative value, so it is modelled as a
  `Nat` together with that bound.
* `Regex::captures` performs an unanchored search over the whole body and
  returns the leftmost match; `\d+` is greedy, so the capture is the maximal
  run of digit characters following the first occurrence of
  `suffix ++ ":" ++ digit`.  This is `findMatch` below.
* The regex class `\d` of the regex crate is Unicode-aware; the model uses
  ASCII digits (`Char.isDigit`).  Theorems that quantify over arbitrary
  bodies therefore carry ASCII side conditions where a non-ASCII digit
  could change the behaviour.
* `Regex::new` can only fail on a syntactically invalid pattern.  The model
  compiles the pattern `"{suffix}:(\d+)"` when every suffix character is an
  ordinary literal (no regex metacharacter); the compiled matcher is then
  literal search for the suffix.  For suffixes containing metacharacters the
  model conservatively reports a pattern-construction failure; no claim
  depends on that case, and `hash` only produces hexadecimal suffixes.
-/

namespace Hibp

/-! ### SHA-1 (the `sha1` crate dependency), over `Nat` bytes and words -/

/-- Truncation to a 32-bit word. -/
def w32 (n : Nat) : Nat := n % 4294967296

/-- Left rotation of a 32-bit word `n` by `s` bits (`n` is assumed `< 2^32`). -/
def rotl (s n : Nat) : Nat := (n * 2 ^ s + n / 2 ^ (32 - s)) % 4294967296

/-- The SHA-1 round function `f_t(b, c, d)`. -/
def sha1F (t b c d : Nat) : Nat :=
  if t < 20 then (b &&& c) ||| ((b ^^^ 4294967295) &&& d)
  else if t < 40 then b ^^^ c ^^^ d
  else if t < 60 then (b &&& c) ||| (b &&& d) ||| (c &&& d)
  else b ^^^ c ^^^ d

/-- The SHA-1 round constant `K_t`. -/
def sha1K (t : Nat) : Nat :=
  if t < 20 then 0x5A827999
  else if t < 40 then 0x6ED9EBA1
  else if t < 60 then 0x8F1BBCDC
  else 0xCA62C1D6

/-- Big-endian byte serialization: `k` bytes of `n`, most significant first. -/
def beBytes : Nat → Nat → List Nat
  | 0, _ => []
  | k + 1, n => (n / 256 ^ k) % 256 :: beBytes k n

/-- Packs bytes into big-endian 32-bit words (16 words for a 64-byte block). -/
def toWords : List Nat → List Nat
  | b0 :: b1 :: b2 :: b3 :: rest => (((b0 * 256 + b1) * 256 + b2) * 256 + b3) :: toWords rest
  | _ => []

/-- Extends the 16-word message schedule by `fuel` further words
`w_t = rotl1 (w_{t-3} xor w_{t-8} xor w_{t-14} xor w_{t-16})`. -/
def extendW : List Nat → Nat → List Nat
  | ws, 0 => ws
  | ws, fuel + 1 =>
    extendW
      (ws ++ [rotl 1 (ws.getD (ws.length - 3) 0 ^^^ ws.getD (ws.length - 8) 0 ^^^
        ws.getD (ws.length - 14) 0 ^^^ ws.getD (ws.length - 16) 0)]) fuel

/-- The 80 SHA-1 rounds; state is `(a, b, c, d, e)`, one round per schedule word. -/
def sha1Rounds : Nat → Nat × Nat × Nat × Nat × Nat → List Nat → Nat × Nat × Nat × Nat × Nat
  | _, st, [] => st
  | t, st, w :: ws =>
    sha1Rounds (t + 1)
      (w32 (rotl 5 st.1 + sha1F t st.2.1 st.2.2.1 st.2.2.2.1 + st.2.2.2.2 + sha1K t + w),
        st.1, rotl 30 st.2.1, st.2.2.1, st.2.2.2.1) ws

/-- One SHA-1 compression step on a 64-byte block. -/
def processBlock (h : Nat × Nat × Nat × Nat × Nat) (block : List Nat) :
    Nat × Nat × Nat × Nat × Nat :=
  let st := sha1Rounds 0 h (extendW (toWords block) 64)
  (w32 (h.1 + st.1), w32 (h.2.1 + st.2.1), w32 (h.2.2.1 + st.2.2.1),
    w32 (h.2.2.2.1 + st.2.2.2.1), w32 (h.2.2.2.2 + st.2.2.2.2))

/-- Splits a byte list into 64-byte chunks; the fuel argument (instantiated
with the list length) makes the recursion structural. -/
def chunks64 : Nat → List Nat → List (List Nat)
  | 0, _ => []
  | _, [] => []
  | fuel + 1, b :: bs => ((b :: bs).take 64) :: chunks64 fuel ((b :: bs).drop 64)

/-- SHA-1 padding: a `0x80` byte, zeros to 56 mod 64, and the 64-bit
big-endian bit length. -/
def sha1Pad (msg : List Nat) : List Nat :=
  msg ++ 128 :: List.replicate ((119 - msg.length % 64) % 64) 0 ++ beBytes 8 (8 * msg.length)

/-- The SHA-1 initialization vector. -/
def sha1Init : Nat × Nat × Nat × Nat × Nat :=
  (0x67452301, 0xEFCDAB89, 0x98BADCFE, 0x10325476, 0xC3D2E1F0)

/-- The five 32-bit words of the SHA-1 state after processing all blocks. -/
def sha1Words (msg : List Nat) : Nat × Nat × Nat × Nat × Nat :=
  (chunks64 (sha1Pad msg).length (sha1Pad msg)).foldl processBlock sha1Init

/-- SHA-1 digest of a byte list: 20 bytes. -/
def sha1 (msg : List Nat) : List Nat :=
  beBytes 4 (sha1Words msg).1 ++ beBytes 4 (sha1Words msg).2.1 ++
    beBytes 4 (sha1Words msg).2.2.1 ++ beBytes 4 (sha1Words msg).2.2.2.1 ++
    beBytes 4 (sha1Words msg).2.2.2.2

/-! ### Hex rendering and the `hash` function (src/lib.rs lines 138-142) -/

/-- Uppercase hexadecimal digit for a value `< 16` (the digit table behind
`format!("{:X}", ...)`). -/
def hexDigitChar (n : Nat) : Char :=
  if n = 0 then '0' else if n = 1 then '1' else if n = 2 then '2'
  else if n = 3 then '3' else if n = 4 then '4' else if n = 5 then '5'
  else if n = 6 then '6' else if n = 7 then '7' else if n = 8 then '8'
  else if n = 9 then '9' else if n = 10 then 'A' else if n = 11 then 'B'
  else if n = 12 then 'C' else if n = 13 then 'D' else if n = 14 then 'E'
  else 'F'

/-- Uppercase hex rendering of a byte list, two characters per byte:
`format!("{:X}", hash)` on the 20-byte digest. -/
def hexUpper : List Nat → List Char
  | [] => []
  | b :: bs => hexDigitChar (b / 16) :: hexDigitChar (b % 16) :: hexUpper bs

/-- UTF-8 encoding of one character (Rust hashes the UTF-8 bytes of the
`String`). -/
def utf8EncodeChar (c : Char) : List Nat :=
  let n := c.toNat
  if n < 128 then [n]
  else if n < 2048 then [192 + n / 64, 128 + n % 64]
  else if n < 65536 then [224 + n / 4096, 128 + n / 64 % 64, 128 + n % 64]
  else [240 + n / 262144, 128 + n / 4096 % 64, 128 + n / 64 % 64, 128 + n % 64]

/-- UTF-8 bytes of a character list. -/
def utf8Bytes : List Char → List Nat
  | [] => []
  | c :: cs => utf8EncodeChar c ++ utf8Bytes cs

/-- UTF-8 bytes of a string. -/
def strBytes (s : String) : List Nat := utf8Bytes s.data

/-- The full 40-character uppercase hexadecimal SHA-1 digest of a password:
`format!("{:X}", Sha1::new().chain(password).result())`. -/
def hexDigest (password : String) : List Char := hexUpper (sha1 (strBytes password))

/-- src/lib.rs `hash`: digest the password and split the hex rendering into
`(hex[0..5], hex[5..])`. -/
def hash (password : String) : String × String :=
  let hex := hexDigest password
  (String.mk (hex.take 5), String.mk (hex.drop 5))

/-- The locally computed 35-character suffix `hash.1` used for matching. -/
def suffixOf (password : String) : List Char := (hash password).2.data

/-! ### The response matcher of `check` (src/lib.rs lines 118-136) -/

/-- Uppercase hexadecimal alphabet `0-9A-F`. -/
def isUpperHexChar (c : Char) : Bool :=
  (48 ≤ c.toNat && c.toNat ≤ 57) || (65 ≤ c.toNat && c.toNat ≤ 70)

/-- Characters that stand for themselves in a regex pattern (not one of the
metacharacters `. * + ? ( ) [ ] { } | ^ $ \`). -/
def isRegexLiteralChar (c : Char) : Bool :=
  !(c.toNat == 46 || c.toNat == 42 || c.toNat == 43 || c.toNat == 63 ||
    c.toNat == 40 || c.toNat == 41 || c.toNat == 91 || c.toNat == 93 ||
    c.toNat == 123 || c.toNat == 125 || c.toNat == 124 || c.toNat == 94 ||
    c.toNat == 36 || c.toNat == 92)

/-- Model of `Regex::new(&format!(r"{}:(\d+)", suffix))`: when every suffix
character is a regex literal the compiled matcher is literal search for the
suffix (represented by the suffix itself); otherwise a pattern-construction
failure is reported (see the modelling notes at the top of the file). -/
def compileSuffixPattern (s : List Char) : Option (List Char) :=
  if s.all isRegexLiteralChar then some s else none

/-- Maximal leading run of (ASCII) digits: the greedy `\d+` capture. -/
def digitRun : List Char → List Char
  | [] => []
  | c :: cs => if c.isDigit then c :: digitRun cs else []

/-- Attempts the pattern `suffix:(\d+)` at the start of `rest`; on success
returns the captured digit run. -/
def tryAt (s rest : List Char) : Option (List Char) :=
  if (s ++ [':']).isPrefixOf rest then
    let run := digitRun (rest.drop (s.length + 1))
    if run.isEmpty then none else some run
  else none

/-- Leftmost match of the pattern `suffix:(\d+)` in the body:
`reg.captures(&response)` restricted to capture group 1. -/
def findMatch (s : List Char) : List Char → Option (List Char)
  | [] => tryAt s []
  | c :: cs =>
    match tryAt s (c :: cs) with
    | some r => some r
    | none => findMatch s cs

/-- Numeric value of a digit string. -/
def digitsVal (ds : List Char) : Nat := ds.foldl (fun a c => a * 10 + (c.toNat - 48)) 0

/-- Model of `"...".parse::<i32>()` on the captured string: succeeds on a
nonempty all-digit string whose value fits in an `i32`. -/
def parseI32 (ds : List Char) : Option Nat :=
  if ds.isEmpty then none
  else if ds.all Char.isDigit then
    if digitsVal ds ≤ 2147483647 then some (digitsVal ds) else none
  else none

/-- The caller-visible outcome of `check`: `Result<(), Error>` with the
`Error` union of src/lib.rs lines 44-49.  `ok` is `Ok(())`, `pwned n` is
`Err(Error::Pwned(PwnedError { uses: n }))`, `parseError` is
`Err(Error::Parse(_))`, `reqwestError` is `Err(Error::Reqwest(_))` (transport
failure, external to the embedded core), and `regexError` is
`Err(Error::Regex(_))`. -/
inductive CheckResult where
  | ok
  | pwned (uses : Nat)
  | parseError
  | reqwestError
  | regexError
deriving DecidableEq, Repr

/-- src/lib.rs `check`, with the successful transport response supplied as
the `body` argument: build the pattern from the suffix `hash.1`, search the
body, and classify.  A match parses its capture as `i32` and yields
`Err(Error::Pwned(uses))`; no match yields `Ok(())`. -/
def check (password : String) (body : String) : CheckResult :=
  match compileSuffixPattern (suffixOf password) with
  | none => CheckResult.regexError
  | some pat =>
    match findMatch pat body.data with
    | none => CheckResult.ok
    | some run =>
      match parseI32 run with
      | none => CheckResult.parseError
      | some uses => CheckResult.pwned uses

/-! ### Auxiliary predicates used to state the claims -/

/-- ASCII character. -/
def asciiChar (c : Char) : Bool := c.toNat < 128

/-- No match of the pattern starts at any of the first `k` positions of the
body. -/
def noMatchBefore (s body : List Char) (k : Nat) : Bool :=
  (List.range k).all fun n => (tryAt s (body.drop n)).isNone

/-- Either empty, or starting with an ASCII non-digit character (so a greedy
digit capture stops right there, in the model and in the Unicode-aware regex
alike). -/
def headAsciiNonDigit : List Char → Bool
  | [] => true
  | c :: _ => asciiChar c && !c.isDigit

/-- The character list `s` occurs as a contiguous substring of `l`. -/
def occursIn (s l : List Char) : Bool :=
  (List.range (l.length + 1)).any fun n => s.isPrefixOf (l.drop n)

/-- A line of the exact wire shape `<35-char-uppercase-hex-suffix>:<decimal-count>`. -/
def wellFormedLine (l : List Char) : Bool :=
  (l.take 35).length == 35 && (l.take 35).all isUpperHexChar &&
    (match l.drop 35 with
      | ':' :: ds => !ds.isEmpty && ds.all Char.isDigit
      | _ => false)

/-- Joins lines with single `'\n'` separators. -/
def linesJoin : List (List Char) → List Char
  | [] => []
  | [l] => l
  | l :: l' :: ls => l ++ '\n' :: linesJoin (l' :: ls)

/-- First per-line match of the pattern, scanning lines in order. -/
def findInLines (s : List Char) : List (List Char) → Option (List Char)
  | [] => none
  | l :: ls =>
    match findMatch s l with
    | some r => some r
    | none => findInLines s ls

/-! ### Lemmas about `isPrefixOf`, `digitRun`, and `tryAt` -/

theorem ipo_append_self (l t : List Char) : (l.isPrefixOf (l ++ t)) = true := by
  induction l with
  | nil => simp [List.isPrefixOf]
  | cons a l ih => simp [List.isPrefixOf, ih]

theorem ipo_length_le : ∀ {l m : List Char}, l.isPrefixOf m = true → l.length ≤ m.length
  | [], _, _ => Nat.zero_le _
  | a :: l, [], h => by simp [List.isPrefixOf] at h
  | a :: l, b :: m, h => by
    simp only [List.isPrefixOf, Bool.and_eq_true] at h
    simpa using ipo_length_le h.2

theorem ipo_nil (m : List Char) : ([] : List Char).isPrefixOf m = true := by
  cases m <;> rfl

theorem ipo_append_left : ∀ {s t m : List Char}, (s ++ t).isPrefixOf m = true →
    s.isPrefixOf m = true
  | [], _, m, _ => ipo_nil m
  | a :: s, t, [], h => by simp [List.isPrefixOf] at h
  | a :: s, t, b :: m, h => by
    simp only [List.cons_append, List.isPrefixOf, Bool.and_eq_true] at h ⊢
    exact ⟨h.1, ipo_append_left h.2⟩

theorem ipo_append_stop {c : Char} : ∀ (p : List Char), c ∉ p → ∀ (xs ys : List Char),
    p.isPrefixOf (xs ++ c :: ys) = p.isPrefixOf xs
  | [], _, xs, ys => by rw [ipo_nil, ipo_nil]
  | a :: p, hc, [], ys => by
    have hac : (a == c) = false := beq_eq_false_iff_ne.2 fun h => hc (h ▸ List.mem_cons_self a p)
    simp [List.isPrefixOf, hac]
  | a :: p, hc, b :: xs, ys => by
    have hcp : c ∉ p := fun h => hc (List.mem_cons_of_mem a h)
    simp [List.isPrefixOf, ipo_append_stop p hcp xs ys]

theorem digitRun_append_stop {c : Char} (hc : c.isDigit = false) :
    ∀ (u v : List Char), digitRun (u ++ c :: v) = digitRun u
  | [], v => by simp [digitRun, hc]
  | a :: u, v => by
    by_cases ha : a.isDigit = true
    · simp [digitRun, ha, digitRun_append_stop hc u v]
    · simp only [Bool.not_eq_true] at ha
      simp [digitRun, ha]

theorem digitRun_digits_append : ∀ (d rest : List Char), d.all Char.isDigit = true →
    digitRun rest = [] → digitRun (d ++ rest) = d
  | [], rest, _, h0 => h0
  | a :: d, rest, hd, h0 => by
    simp only [List.all_cons, Bool.and_eq_true] at hd
    simp [digitRun, hd.1, digitRun_digits_append d rest hd.2 h0]

theorem digitRun_nil_of_headAsciiNonDigit : ∀ {rest : List Char},
    headAsciiNonDigit rest = true → digitRun rest = []
  | [], _ => rfl
  | c :: cs, h => by
    simp only [headAsciiNonDigit, Bool.and_eq_true, Bool.not_eq_true'] at h
    simp [digitRun, h.2]

theorem digitRun_head_digit : ∀ {rest run : List Char}, digitRun rest = run → run ≠ [] →
    ∃ c cs, rest = c :: cs ∧ c.isDigit = true
  | [], run, h, hne => absurd h.symm hne
  | c :: cs, run, h, hne => by
    by_cases hc : c.isDigit = true
    · exact ⟨c, cs, rfl, hc⟩
    · simp only [Bool.not_eq_true] at hc
      simp only [digitRun, hc, Bool.false_eq_true, if_false] at h
      exact absurd h.symm hne

theorem tryAt_eq_some_iff {s rest r : List Char} : tryAt s rest = some r ↔
    ((s ++ [':']).isPrefixOf rest = true ∧ digitRun (rest.drop (s.length + 1)) = r ∧ r ≠ []) := by
  simp only [tryAt]
  by_cases h1 : (s ++ [':']).isPrefixOf rest = true
  · simp only [h1, if_true, true_and]
    by_cases h2 : digitRun (rest.drop (s.length + 1)) = []
    · simp only [h2, List.isEmpty_nil, if_true]
      constructor
      · intro h; cases h
      · rintro ⟨rfl, hne⟩; exact absurd rfl hne
    · have h2' : ¬((digitRun (rest.drop (s.length + 1))).isEmpty = true) := by
        rw [List.isEmpty_iff]; exact h2
      rw [if_neg h2']
      constructor
      · intro h
        injection h with h
        exact ⟨h, h ▸ h2⟩
      · rintro ⟨rfl, -⟩; rfl
  · rw [if_neg h1]
    constructor
    · intro h; cases h
    · rintro ⟨hp, -⟩; exact absurd hp h1

theorem tryAt_nil (s : List Char) : tryAt s [] = none := by
  unfold tryAt
  rw [if_neg]
  intro h
  have := ipo_length_le h
  simp at this

theorem tryAt_self {s d post : List Char} (hd : d ≠ []) (hdig : d.all Char.isDigit = true)
    (hpost : headAsciiNonDigit post = true) :
    tryAt s (s ++ ':' :: (d ++ post)) = some d := by
  rw [tryAt_eq_some_iff]
  have hsplit : s ++ ':' :: (d ++ post) = (s ++ [':']) ++ (d ++ post) := by simp
  refine ⟨?_, ?_, hd⟩
  · rw [hsplit]; exact ipo_append_self _ _
  · rw [hsplit]
    have hlen : (s ++ [':']).length = s.length + 1 := by simp
    rw [← hlen, List.drop_left]
    exact digitRun_digits_append d post hdig (digitRun_nil_of_headAsciiNonDigit hpost)

theorem tryAt_append_stop {c : Char} {s : List Char} (hcs : c ∉ s) (hcc : c ≠ ':')
    (hcd : c.isDigit = false) (xs ys : List Char) :
    tryAt s (xs ++ c :: ys) = tryAt s xs := by
  have hcp : c ∉ s ++ [':'] := by
    intro h
    rcases List.mem_append.1 h with h | h
    · exact hcs h
    · exact hcc (by simpa using h)
  unfold tryAt
  rw [ipo_append_stop _ hcp]
  by_cases h1 : (s ++ [':']).isPrefixOf xs = true
  · have hlen : s.length + 1 ≤ xs.length := by
      have := ipo_length_le h1
      simpa using this
    rw [List.drop_append_of_le_length hlen, digitRun_append_stop hcd]
  · simp [h1]

/-! ### Lemmas about `findMatch` -/

theorem findMatch_cons (s : List Char) (c : Char) (cs : List Char) :
    findMatch s (c :: cs) =
      match tryAt s (c :: cs) with
      | some r => some r
      | none => findMatch s cs := rfl

theorem findMatch_nil (s : List Char) : findMatch s [] = none := tryAt_nil s

theorem findMatch_none_iff {s body : List Char} :
    findMatch s body = none ↔ ∀ n, tryAt s (body.drop n) = none := by
  induction body with
  | nil =>
    simp only [findMatch_nil, List.drop_nil, true_iff]
    intro n
    exact tryAt_nil s
  | cons c cs ih =>
    rw [findMatch_cons]
    constructor
    · intro h n
      cases htry : tryAt s (c :: cs) with
      | some r => rw [htry] at h; cases h
      | none =>
        rw [htry] at h
        cases n with
        | zero => exact htry
        | succ n => rw [List.drop_succ_cons]; exact (ih.1 h) n
    · intro h
      have h0 := h 0
      simp only [List.drop] at h0
      rw [h0]
      exact ih.2 fun n => by
        have := h (n + 1)
        rwa [List.drop_succ_cons] at this

theorem findMatch_head {s rest r : List Char} (h : tryAt s rest = some r) :
    findMatch s rest = some r := by
  cases rest with
  | nil => rw [findMatch_nil, tryAt_nil s] at *; exact h
  | cons c cs => rw [findMatch_cons, h]

theorem noMatchBefore_iff {s body : List Char} {k : Nat} :
    noMatchBefore s body k = true ↔ ∀ n < k, tryAt s (body.drop n) = none := by
  simp [noMatchBefore, List.all_eq_true, List.mem_range, Option.isNone_iff_eq_none]

theorem findMatch_skip {s tail : List Char} :
    ∀ (pre : List Char), (∀ n < pre.length, tryAt s ((pre ++ tail).drop n) = none) →
      findMatch s (pre ++ tail) = findMatch s tail
  | [], _ => by rw [List.nil_append]
  | p :: ps, h => by
    have h0 : tryAt s (p :: (ps ++ tail)) = none := by
      have := h 0 (Nat.succ_pos _)
      simpa using this
    rw [List.cons_append, findMatch_cons, h0]
    exact findMatch_skip ps fun n hn => by
      have := h (n + 1) (Nat.succ_lt_succ hn)
      rwa [List.cons_append, List.drop_succ_cons] at this

theorem findMatch_append_some {c : Char} {s : List Char} (hcs : c ∉ s) (hcc : c ≠ ':')
    (hcd : c.isDigit = false) {r : List Char} (ys : List Char) :
    ∀ (xs : List Char), findMatch s xs = some r → findMatch s (xs ++ c :: ys) = some r
  | [], h => by rw [findMatch_nil] at h; cases h
  | a :: xs, h => by
    rw [findMatch_cons] at h
    cases htry : tryAt s (a :: xs) with
    | some q =>
      rw [htry] at h
      have : tryAt s ((a :: xs) ++ c :: ys) = some q := by
        rw [tryAt_append_stop hcs hcc hcd, htry]
      rw [List.cons_append] at this ⊢
      rw [findMatch_cons, this]
      exact h
    | none =>
      rw [htry] at h
      have hstop : tryAt s ((a :: xs) ++ c :: ys) = none := by
        rw [tryAt_append_stop hcs hcc hcd, htry]
      rw [List.cons_append] at hstop ⊢
      rw [findMatch_cons, hstop]
      exact findMatch_append_some hcs hcc hcd ys xs h

theorem findMatch_append_none {c : Char} {s : List Char} (hcs : c ∉ s) (hcc : c ≠ ':')
    (hcd : c.isDigit = false) (ys : List Char) :
    ∀ (xs : List Char), findMatch s xs = none →
      findMatch s (xs ++ c :: ys) = findMatch s (c :: ys)
  | [], _ => by rw [List.nil_append]
  | a :: xs, h => by
    rw [findMatch_cons] at h
    cases htry : tryAt s (a :: xs) with
    | some q => rw [htry] at h; cases h
    | none =>
      rw [htry] at h
      have hstop : tryAt s ((a :: xs) ++ c :: ys) = none := by
        rw [tryAt_append_stop hcs hcc hcd, htry]
      rw [List.cons_append] at hstop ⊢
      rw [findMatch_cons, hstop]
      exact findMatch_append_none hcs hcc hcd ys xs h

theorem tryAt_cons_ne {s : List Char} {h0 : Char} {t : List Char} (hs : s = h0 :: t)
    {c : Char} (hc : c ≠ h0) (ys : List Char) : tryAt s (c :: ys) = none := by
  subst hs
  unfold tryAt
  rw [if_neg]
  intro hp
  simp only [List.cons_append, List.isPrefixOf, Bool.and_eq_true, beq_iff_eq] at hp
  exact hc hp.1.symm

theorem findMatch_newline_cons {s : List Char} {h0 : Char} {t : List Char} (hs : s = h0 :: t)
    (hne : h0 ≠ '\n') (ys : List Char) : findMatch s ('\n' :: ys) = findMatch s ys := by
  rw [findMatch_cons, tryAt_cons_ne hs (fun h => hne h.symm) ys]

theorem newline_spec : ('\n' : Char) ≠ ':' ∧ ('\n' : Char).isDigit = false := by decide

theorem findMatch_linesJoin {s : List Char} {h0 : Char} {t : List Char} (hs : s = h0 :: t)
    (hnl : '\n' ∉ s) : ∀ (ls : List (List Char)),
      findMatch s (linesJoin ls) = findInLines s ls
  | [] => by rw [linesJoin, findInLines, findMatch_nil]
  | [l] => by
    rw [linesJoin, findInLines, findInLines]
    cases h : findMatch s l <;> rfl
  | l :: l' :: ls => by
    rw [linesJoin, findInLines]
    cases h : findMatch s l with
    | some r => rw [findMatch_append_some hnl newline_spec.1 newline_spec.2 _ l h]
    | none =>
      rw [findMatch_append_none hnl newline_spec.1 newline_spec.2 _ l h,
        findMatch_newline_cons hs (fun hh => hnl (hs ▸ (hh ▸ List.mem_cons_self h0 t))) _,
        findMatch_linesJoin hs hnl (l' :: ls)]

theorem findInLines_filter {s : List Char} :
    ∀ (ls : List (List Char)), (∀ l ∈ ls, wellFormedLine l = false → findMatch s l = none) →
      findInLines s ls = findInLines s (ls.filter wellFormedLine)
  | [], _ => rfl
  | l :: ls, h => by
    rw [findInLines, List.filter_cons]
    by_cases hwf : wellFormedLine l = true
    · rw [if_pos hwf, findInLines]
      cases hm : findMatch s l with
      | some r => rfl
      | none => exact findInLines_filter ls fun l' hl' => h l' (List.mem_cons_of_mem l hl')
    · rw [if_neg hwf]
      rw [h l (List.mem_cons_self l ls) (Bool.not_eq_true _ ▸ hwf)]
      exact findInLines_filter ls fun l' hl' => h l' (List.mem_cons_of_mem l hl')

theorem findMatch_of_not_occurs {s : List Char} {h0 : Char} {t : List Char} (hs : s = h0 :: t)
    {l : List Char} (h : occursIn s l = false) : findMatch s l = none := by
  rw [findMatch_none_iff]
  intro n
  cases htry : tryAt s (l.drop n) with
  | none => rfl
  | some r =>
    exfalso
    have hp := (tryAt_eq_some_iff.1 htry).1
    have hp' : s.isPrefixOf (l.drop n) = true := ipo_append_left hp
    by_cases hn : n ≤ l.length
    · have : occursIn s l = true := by
        unfold occursIn
        rw [List.any_eq_true]
        exact ⟨n, List.mem_range.2 (Nat.lt_succ_of_le hn), hp'⟩
      rw [this] at h
      cases h
    · have hnil : l.drop n = [] := List.drop_eq_nil_of_le (Nat.le_of_lt (Nat.lt_of_not_le hn))
      rw [hnil, hs] at hp'
      simp [List.isPrefixOf] at hp'

/-! ### Lemmas about `parseI32` -/

theorem parseI32_some_le {ds : List Char} {n : Nat} (h : parseI32 ds = some n) :
    n ≤ 2147483647 := by
  unfold parseI32 at h
  by_cases h1 : ds.isEmpty = true
  · rw [if_pos h1] at h; cases h
  · rw [if_neg h1] at h
    by_cases h2 : ds.all Char.isDigit = true
    · rw [if_pos h2] at h
      by_cases h3 : digitsVal ds ≤ 2147483647
      · rw [if_pos h3] at h
        injection h with h
        exact h ▸ h3
      · rw [if_neg h3] at h; cases h
    · rw [if_neg h2] at h; cases h

theorem parseI32_digits_le {d : List Char} (hd : d ≠ []) (hdig : d.all Char.isDigit = true)
    (hv : digitsVal d ≤ 2147483647) : parseI32 d = some (digitsVal d) := by
  unfold parseI32
  rw [if_neg (by rw [List.isEmpty_iff]; exact hd), if_pos hdig, if_pos hv]

theorem parseI32_digits_gt {d : List Char} (hd : d ≠ []) (hdig : d.all Char.isDigit = true)
    (hv : 2147483647 < digitsVal d) : parseI32 d = none := by
  unfold parseI32
  rw [if_neg (by rw [List.isEmpty_iff]; exact hd), if_pos hdig,
    if_neg (Nat.not_le_of_lt hv)]

/-! ### Lemmas about the digest: lengths, hex alphabet, suffix facts -/

theorem beBytes_length (k n : Nat) : (beBytes k n).length = k := by
  induction k generalizing n with
  | zero => rfl
  | succ k ih => simp [beBytes, ih]

theorem beBytes_lt (k n : Nat) : ∀ b ∈ beBytes k n, b < 256 := by
  induction k generalizing n with
  | zero => intro b hb; cases hb
  | succ k ih =>
    intro b hb
    rcases List.mem_cons.1 hb with rfl | hb
    · exact Nat.mod_lt _ (by omega)
    · exact ih n b hb

theorem sha1_length (m : List Nat) : (sha1 m).length = 20 := by
  simp [sha1, beBytes_length]

theorem sha1_lt (m : List Nat) : ∀ b ∈ sha1 m, b < 256 := by
  intro b hb
  unfold sha1 at hb
  simp only [List.mem_append] at hb
  rcases hb with ((((h | h) | h) | h) | h) <;> exact beBytes_lt _ _ b h

theorem hexUpper_length (bs : List Nat) : (hexUpper bs).length = 2 * bs.length := by
  induction bs with
  | nil => rfl
  | cons b bs ih => simp [hexUpper, ih]; omega

theorem hexDigitChar_hex {n : Nat} (h : n < 16) : isUpperHexChar (hexDigitChar n) = true := by
  interval_cases n <;> decide

theorem hexUpper_all_hex {bs : List Nat} (h : ∀ b ∈ bs, b < 256) :
    (hexUpper bs).all isUpperHexChar = true := by
  induction bs with
  | nil => rfl
  | cons b bs ih =>
    have hb : b < 256 := h b (List.mem_cons_self b bs)
    have h1 : b / 16 < 16 := by omega
    have h2 : b % 16 < 16 := Nat.mod_lt _ (by omega)
    simp only [hexUpper, List.all_cons, Bool.and_eq_true]
    exact ⟨hexDigitChar_hex h1, hexDigitChar_hex h2,
      ih fun x hx => h x (List.mem_cons_of_mem b hx)⟩

theorem hexDigest_length (pw : String) : (hexDigest pw).length = 40 := by
  rw [hexDigest, hexUpper_length, sha1_length]

theorem hexDigest_all_hex (pw : String) : (hexDigest pw).all isUpperHexChar = true :=
  hexUpper_all_hex (sha1_lt _)

theorem data_mk (l : List Char) : (String.mk l).data = l := rfl

theorem suffixOf_eq (pw : String) : suffixOf pw = (hexDigest pw).drop 5 := rfl

theorem suffixOf_length (pw : String) : (suffixOf pw).length = 35 := by
  rw [suffixOf_eq, List.length_drop, hexDigest_length]

theorem suffixOf_all_hex (pw : String) : (suffixOf pw).all isUpperHexChar = true := by
  rw [List.all_eq_true]
  intro c hc
  exact List.all_eq_true.1 (hexDigest_all_hex pw) c (List.drop_subset 5 _ (suffixOf_eq pw ▸ hc))

theorem suffixOf_head (pw : String) : ∃ h0 t, suffixOf pw = h0 :: t := by
  cases hs : suffixOf pw with
  | nil => have := suffixOf_length pw; rw [hs] at this; cases this
  | cons h0 t => exact ⟨h0, t, rfl⟩

theorem suffixOf_ne_nil (pw : String) : suffixOf pw ≠ [] := by
  obtain ⟨h0, t, hs⟩ := suffixOf_head pw
  rw [hs]
  exact List.cons_ne_nil h0 t

theorem newline_not_mem_suffixOf (pw : String) : '\n' ∉ suffixOf pw := by
  intro h
  have := List.all_eq_true.1 (suffixOf_all_hex pw) _ h
  simp [isUpperHexChar] at this

theorem hex_imp_literal {c : Char} (h : isUpperHexChar c = true) :
    isRegexLiteralChar c = true := by
  simp only [isUpperHexChar, Bool.or_eq_true, Bool.and_eq_true, decide_eq_true_eq] at h
  simp only [isRegexLiteralChar, Bool.not_eq_true', Bool.or_eq_false_iff,
    beq_eq_false_iff_ne, ne_eq]
  omega

theorem compile_of_all_hex {s : List Char} (h : s.all isUpperHexChar = true) :
    compileSuffixPattern s = some s := by
  unfold compileSuffixPattern
  rw [if_pos]
  rw [List.all_eq_true] at h ⊢
  exact fun c hc => hex_imp_literal (h c hc)

theorem compile_suffixOf (pw : String) :
    compileSuffixPattern (suffixOf pw) = some (suffixOf pw) :=
  compile_of_all_hex (suffixOf_all_hex pw)

/-! ### Unfolding `check` past the always-successful pattern compilation -/

theorem check_eq_of_findMatch (pw body : String) :
    check pw body =
      match findMatch (suffixOf pw) body.data with
      | none => CheckResult.ok
      | some run =>
        match parseI32 run with
        | none => CheckResult.parseError
        | some n => CheckResult.pwned n := by
  unfold check
  rw [compile_suffixOf]

theorem drop_append_ge (xs z : List Char) (m : Nat) (h : xs.length ≤ m) :
    (xs ++ z).drop m = z.drop (m - xs.length) := by
  have hm : m = xs.length + (m - xs.length) := by omega
  rw [hm, List.drop_append, Nat.add_sub_cancel_left]

/-! ### The claims -/

set_option maxRecDepth 1000000

/-- C3: for every credential string `c` (including the empty string), `hash`
yields a prefix of length exactly 5 and a suffix of length exactly 35, both
consisting only of uppercase hexadecimal characters `0-9A-F`, and the
concatenation prefix ++ suffix equals the full 40-character uppercase SHA-1
hex digest of `c`. -/
theorem hash_digest_split (c : String) :
    (hash c).1.length = 5 ∧ (hash c).2.length = 35 ∧
      (hash c).1.data.all isUpperHexChar = true ∧
      (hash c).2.data.all isUpperHexChar = true ∧
      (hash c).1 ++ (hash c).2 = String.mk (hexDigest c) ∧
      (hexDigest c).length = 40 := by
  refine ⟨?_, ?_, ?_, ?_, ?_, hexDigest_length c⟩
  · show ((hexDigest c).take 5).length = 5
    rw [List.length_take, hexDigest_length]
    decide
  · show ((hexDigest c).drop 5).length = 35
    rw [List.length_drop, hexDigest_length]
  · show ((hexDigest c).take 5).all isUpperHexChar = true
    rw [List.all_eq_true]
    exact fun x hx => List.all_eq_true.1 (hexDigest_all_hex c) x (List.take_subset 5 _ hx)
  · exact suffixOf_all_hex c
  · show String.mk ((hexDigest c).take 5) ++ String.mk ((hexDigest c).drop 5) =
      String.mk (hexDigest c)
    have happ : ∀ a b : List Char, String.mk a ++ String.mk b = String.mk (a ++ b) :=
      fun a b => rfl
    rw [happ, List.take_append_drop]

/-- C1 as stated is false on the code: `reg.captures` returns the leftmost
match of `suffix:(\d+)` anywhere in the body, and the capture must parse as
`i32`.  First input: the body has exactly one line of the form `suffix:N`
whose suffix field equals the computed suffix (the `...:42` line), yet
`check` returns `Pwned(7)` from the earlier embedded occurrence inside
`XX...:7`, not `Pwned(42)`.  Second input: the body is exactly the single
line `suffix:99999999999999999999`, and `check` returns a parse error, not
`Pwned(99999999999999999999)`. -/
theorem check_leftmost_overrides_exact_line :
    (check "test"
        "XXFE5CCB19BA61C4C0873D391E987982FBBD3:7\nFE5CCB19BA61C4C0873D391E987982FBBD3:42" =
        CheckResult.pwned 7 ∧ CheckResult.pwned 7 ≠ CheckResult.pwned 42) ∧
      (check "test" "FE5CCB19BA61C4C0873D391E987982FBBD3:99999999999999999999" =
        CheckResult.parseError ∧
        CheckResult.parseError ≠ CheckResult.pwned 99999999999999999999) := by
  refine ⟨⟨by decide, by decide⟩, ⟨by decide, by decide⟩⟩

/-- C1 (amended): for every ASCII response body whose first occurrence of
the pattern `suffix:(digit)` is the occurrence inside a segment
`suffix:N` (N a nonempty decimal digit string with value at most
`i32::MAX = 2147483647`, followed by a non-digit or the end), `check`
returns the compromised outcome `Error::Pwned` carrying count `N`; in
particular this holds for credential `"test"` and a body containing the
line `FE5CCB19BA61C4C0873D391E987982FBBD3:42`. -/
theorem check_first_match_pwned (pw : String) (pre d post : List Char)
    (_hpre : pre.all asciiChar = true) (hd : d ≠ [])
    (hdig : d.all Char.isDigit = true) (hv : digitsVal d ≤ 2147483647)
    (hpost : headAsciiNonDigit post = true)
    (hnm : noMatchBefore (suffixOf pw) (pre ++ (suffixOf pw ++ ':' :: (d ++ post)))
      pre.length = true) :
    check pw (String.mk (pre ++ (suffixOf pw ++ ':' :: (d ++ post)))) =
      CheckResult.pwned (digitsVal d) := by
  simp only [check_eq_of_findMatch, data_mk,
    findMatch_skip pre (noMatchBefore_iff.1 hnm),
    findMatch_head (tryAt_self hd hdig hpost),
    parseI32_digits_le hd hdig hv]

/-- Witness for C1: credential `"test"`, the scenario-B body shape with an
unrelated line before the matching line `FE5CCB19BA61C4C0873D391E987982FBBD3:42`. -/
theorem check_first_match_pwned_witness :
    noMatchBefore (suffixOf "test")
        ("\nFD8D510BFF2210462F26307C2143E990E6E:2\n".data ++
          (suffixOf "test" ++ ':' :: ("42".data ++ "\nFFF983A91443AE72BD98E59ADAB93B31974:2\n".data)))
        "\nFD8D510BFF2210462F26307C2143E990E6E:2\n".data.length = true ∧
      check "test"
        (String.mk ("\nFD8D510BFF2210462F26307C2143E990E6E:2\n".data ++
          (suffixOf "test" ++ ':' :: ("42".data ++ "\nFFF983A91443AE72BD98E59ADAB93B31974:2\n".data)))) =
        CheckResult.pwned 42 :=
  ⟨by decide,
    check_first_match_pwned "test" "\nFD8D510BFF2210462F26307C2143E990E6E:2\n".data
      "42".data "\nFFF983A91443AE72BD98E59ADAB93B31974:2\n".data (by decide) (by decide)
      (by decide) (by decide) (by decide) (by decide)⟩

/-- C2 as stated is false on the code: the body below consists of the single
line `ZZ<suffix>:9`, whose suffix field (`ZZ...`, 37 characters) does not
equal the computed 35-character suffix, yet `check` returns `Pwned(9)`
because the pattern occurs as an embedded substring. -/
theorem check_embedded_occurrence_not_ok :
    check "test" "ZZFE5CCB19BA61C4C0873D391E987982FBBD3:9" = CheckResult.pwned 9 ∧
      CheckResult.pwned 9 ≠ CheckResult.ok := by
  refine ⟨by decide, by decide⟩

/-- C2 (amended): for every ASCII response body in which the computed suffix
followed by `:` and a digit occurs nowhere as a substring — including the
empty body — `check` returns the not-compromised success outcome `Ok`. -/
theorem check_no_occurrence_ok (pw body : String)
    (_hascii : body.data.all asciiChar = true)
    (hnm : noMatchBefore (suffixOf pw) body.data body.data.length = true) :
    check pw body = CheckResult.ok := by
  have hnone : findMatch (suffixOf pw) body.data = none := by
    rw [findMatch_none_iff]
    intro n
    by_cases hn : n < body.data.length
    · exact noMatchBefore_iff.1 hnm n hn
    · rw [List.drop_eq_nil_of_le (Nat.le_of_not_lt hn)]
      exact tryAt_nil _
  simp only [check_eq_of_findMatch, hnone]

/-- Witness for C2: the empty body, and the scenario-A body of unrelated
suffixes, both yield `Ok` for credential `"test"`. -/
theorem check_no_occurrence_ok_witness :
    (noMatchBefore (suffixOf "test") "".data "".data.length = true ∧
      check "test" "" = CheckResult.ok) ∧
      (noMatchBefore (suffixOf "test")
          "\nFD8D510BFF2210462F26307C2143E990E6E:2\nFF36DC7D3284A39991ADA90CAF20D1E3C0D:1\n".data
          "\nFD8D510BFF2210462F26307C2143E990E6E:2\nFF36DC7D3284A39991ADA90CAF20D1E3C0D:1\n".data.length =
          true ∧
        check "test" "\nFD8D510BFF2210462F26307C2143E990E6E:2\nFF36DC7D3284A39991ADA90CAF20D1E3C0D:1\n" =
          CheckResult.ok) :=
  ⟨⟨by decide, check_no_occurrence_ok "test" "" (by decide) (by decide)⟩,
    ⟨by decide,
      check_no_occurrence_ok "test"
        "\nFD8D510BFF2210462F26307C2143E990E6E:2\nFF36DC7D3284A39991ADA90CAF20D1E3C0D:1\n"
        (by decide) (by decide)⟩⟩

/-- C4 as stated is false on the code: for the body consisting of the single
line `<suffix>:abc`, whose suffix field equals the computed suffix but whose
count field is non-numeric, the regex `suffix:(\d+)` simply does not match
(it demands at least one digit), so `check` returns the not-compromised
outcome `Ok`, not a `ParseError`. -/
theorem check_nondigit_count_not_parse_error :
    check "test" "FE5CCB19BA61C4C0873D391E987982FBBD3:abc" = CheckResult.ok ∧
      CheckResult.ok ≠ CheckResult.parseError := by
  refine ⟨by decide, by decide⟩

/-- C4 (amended): for every response body consisting of the computed suffix,
a colon, and a count field made of ASCII non-digit characters (such as
`<suffix>:abc`), `check` returns the not-compromised outcome `Ok`: the
pattern requires at least one digit after the colon, so the line is treated
as not matching rather than as a `ParseError`. -/
theorem check_nondigit_count_ok (pw : String) (t : List Char)
    (ht : t.all (fun c => asciiChar c && !c.isDigit) = true) :
    check pw (String.mk (suffixOf pw ++ ':' :: t)) = CheckResult.ok := by
  have hnone : findMatch (suffixOf pw) (suffixOf pw ++ ':' :: t) = none := by
    rw [findMatch_none_iff]
    intro n
    cases htry : tryAt (suffixOf pw) ((suffixOf pw ++ ':' :: t).drop n) with
    | none => rfl
    | some r =>
      exfalso
      obtain ⟨hp, hrun, hne⟩ := tryAt_eq_some_iff.1 htry
      obtain ⟨c, cs, hcons, hcd⟩ := digitRun_head_digit hrun hne
      rw [List.drop_drop] at hcons
      have hsplit : suffixOf pw ++ ':' :: t = (suffixOf pw ++ [':']) ++ t := by simp
      have hge : (suffixOf pw ++ [':']).length ≤ n + ((suffixOf pw).length + 1) := by
        simp only [List.length_append, List.length_singleton]
        omega
      rw [hsplit, drop_append_ge _ _ _ hge] at hcons
      have hmem : c ∈ t := by
        have : c ∈ t.drop (n + ((suffixOf pw).length + 1) - (suffixOf pw ++ [':']).length) := by
          rw [hcons]; exact List.mem_cons_self c cs
        exact List.drop_subset _ t this
      have := List.all_eq_true.1 ht c hmem
      rw [Bool.and_eq_true, Bool.not_eq_true'] at this
      rw [this.2] at hcd
      cases hcd
  simp only [check_eq_of_findMatch, data_mk, hnone]

/-- Witness for C4: credential `"test"` and count field `abc` yield `Ok`. -/
theorem check_nondigit_count_ok_witness :
    "abc".data.all (fun c => asciiChar c && !c.isDigit) = true ∧
      check "test" (String.mk (suffixOf "test" ++ ':' :: "abc".data)) = CheckResult.ok :=
  ⟨by decide, check_nondigit_count_ok "test" "abc".data (by decide)⟩

/-- C5 as stated is false on the code: a response line `<suffix>:0` matches
the pattern and parses to 0, so `check` returns the compromised outcome
carrying count 0, which is not at least 1. -/
theorem check_pwned_zero :
    check "test" "FE5CCB19BA61C4C0873D391E987982FBBD3:0" = CheckResult.pwned 0 ∧
      ¬(1 ≤ 0) := by
  refine ⟨by decide, by decide⟩

/-- C5 (amended): whenever `check` returns the compromised outcome, the
occurrence count it carries is a non-negative integer at most
`i32::MAX = 2147483647` (the bound enforced by the `i32` parse); a count of
0 is possible when the response lists a zero count, so "at least 1" does not
hold. -/
theorem check_pwned_count_bounded (pw body : String) (n : Nat)
    (h : check pw body = CheckResult.pwned n) : n ≤ 2147483647 := by
  rw [check_eq_of_findMatch] at h
  cases hfm : findMatch (suffixOf pw) body.data with
  | none => rw [hfm] at h; cases h
  | some run =>
    rw [hfm] at h
    have h' : (match parseI32 run with
        | none => CheckResult.parseError
        | some k => CheckResult.pwned k) = CheckResult.pwned n := h
    cases hp : parseI32 run with
    | none => rw [hp] at h'; cases h'
    | some m =>
      rw [hp] at h'
      have h'' : CheckResult.pwned m = CheckResult.pwned n := h'
      injection h'' with h''
      exact h'' ▸ parseI32_some_le hp

/-- Witness for C5: the scenario-B single line `<suffix>:42` yields
`Pwned(42)` and 42 is within the bound. -/
theorem check_pwned_count_bounded_witness :
    check "test" "FE5CCB19BA61C4C0873D391E987982FBBD3:42" = CheckResult.pwned 42 ∧
      42 ≤ 2147483647 :=
  ⟨by decide,
    check_pwned_count_bounded "test" "FE5CCB19BA61C4C0873D391E987982FBBD3:42" 42 (by decide)⟩

/-- C6 as stated is false on the code: the body below contains a line whose
suffix field equals the computed suffix and whose count field is a digit
string out of `i32` range, yet `check` returns `Pwned(42)` from the earlier
matching line rather than a `ParseError`. -/
theorem check_overflow_shadowed_by_earlier_match :
    check "test"
        "FE5CCB19BA61C4C0873D391E987982FBBD3:42\nFE5CCB19BA61C4C0873D391E987982FBBD3:99999999999999999999" =
        CheckResult.pwned 42 ∧
      CheckResult.pwned 42 ≠ CheckResult.parseError := by
  refine ⟨by decide, by decide⟩

/-- C6 (amended): for every ASCII response body whose first occurrence of
the pattern `suffix:(digit)` captures a digit string whose value exceeds
`i32::MAX = 2147483647`, `check` returns the `ParseError` outcome rather
than compromised or not-compromised. -/
theorem check_overflow_first_match (pw : String) (pre d post : List Char)
    (_hpre : pre.all asciiChar = true) (hd : d ≠ [])
    (hdig : d.all Char.isDigit = true) (hv : 2147483647 < digitsVal d)
    (hpost : headAsciiNonDigit post = true)
    (hnm : noMatchBefore (suffixOf pw) (pre ++ (suffixOf pw ++ ':' :: (d ++ post)))
      pre.length = true) :
    check pw (String.mk (pre ++ (suffixOf pw ++ ':' :: (d ++ post)))) =
      CheckResult.parseError := by
  simp only [check_eq_of_findMatch, data_mk,
    findMatch_skip pre (noMatchBefore_iff.1 hnm),
    findMatch_head (tryAt_self hd hdig hpost),
    parseI32_digits_gt hd hdig hv]

/-- Witness for C6: a single line `<suffix>:99999999999999999999` yields a
`ParseError` for credential `"test"`. -/
theorem check_overflow_first_match_witness :
    2147483647 < digitsVal "99999999999999999999".data ∧
      check "test" (String.mk ([] ++ (suffixOf "test" ++ ':' :: ("99999999999999999999".data ++ [])))) =
        CheckResult.parseError :=
  ⟨by decide,
    check_overflow_first_match "test" [] "99999999999999999999".data [] (by decide)
      (by decide) (by decide) (by decide) (by decide) (by decide)⟩

/-- C7: lines that do not have the `<35-char-hex-suffix>:<decimal-count>`
shape and do not contain the sought suffix as a substring are skipped
without failing the whole check: the outcome on the full body equals the
outcome on the body rebuilt from the well-formed lines alone. -/
theorem check_skips_unrelated_lines (pw : String) (ls : List (List Char))
    (h : ls.all (fun l => wellFormedLine l || !(occursIn (suffixOf pw) l)) = true) :
    check pw (String.mk (linesJoin ls)) =
      check pw (String.mk (linesJoin (ls.filter wellFormedLine))) := by
  obtain ⟨h0, t, hs⟩ := suffixOf_head pw
  have hnl := newline_not_mem_suffixOf pw
  have hjunk : ∀ l ∈ ls, wellFormedLine l = false → findMatch (suffixOf pw) l = none := by
    intro l hl hwf
    have hall := List.all_eq_true.1 h l hl
    rw [hwf, Bool.false_or, Bool.not_eq_true'] at hall
    exact findMatch_of_not_occurs hs hall
  rw [check_eq_of_findMatch, check_eq_of_findMatch, data_mk, data_mk,
    findMatch_linesJoin hs hnl ls, findMatch_linesJoin hs hnl (ls.filter wellFormedLine),
    findInLines_filter ls hjunk]

/-- Witness for C7: a malformed junk line next to the well-formed line
`<suffix>:42` does not change the outcome. -/
theorem check_skips_unrelated_lines_witness :
    ["this line is junk !!".data,
        "FE5CCB19BA61C4C0873D391E987982FBBD3:42".data].all
        (fun l => wellFormedLine l || !(occursIn (suffixOf "test") l)) = true ∧
      check "test"
        (String.mk (linesJoin ["this line is junk !!".data,
          "FE5CCB19BA61C4C0873D391E987982FBBD3:42".data])) =
        check "test"
          (String.mk (linesJoin (["this line is junk !!".data,
            "FE5CCB19BA61C4C0873D391E987982FBBD3:42".data].filter wellFormedLine))) :=
  ⟨by decide,
    check_skips_unrelated_lines "test"
      ["this line is junk !!".data, "FE5CCB19BA61C4C0873D391E987982FBBD3:42".data]
      (by decide)⟩

/-- C8: a failure to construct the query pattern is a representable
classified error value (`Error::Regex`, the `regexError` constructor of the
result union), not a panic; and whenever the suffix consists only of
hexadecimal characters — as `hash` guarantees — pattern construction
succeeds, so for arbitrary passwords and bodies `check` never reaches the
`regexError` branch. -/
theorem regex_error_unreachable :
    (∀ s : List Char, s.all isUpperHexChar = true →
        (compileSuffixPattern s).isSome = true) ∧
      ∀ (pw body : String), check pw body ≠ CheckResult.regexError := by
  constructor
  · intro s hs
    rw [compile_of_all_hex hs]
    rfl
  · intro pw body h
    rw [check_eq_of_findMatch] at h
    cases hfm : findMatch (suffixOf pw) body.data with
    | none => rw [hfm] at h; cases h
    | some run =>
      rw [hfm] at h
      have h' : (match parseI32 run with
          | none => CheckResult.parseError
          | some k => CheckResult.pwned k) = CheckResult.regexError := h
      cases hp : parseI32 run with
      | none => rw [hp] at h'; cases h'
      | some m =>
        rw [hp] at h'
        have h'' : CheckResult.pwned m = CheckResult.regexError := h'
        cases h''

/-- Witness for C8: a concrete hexadecimal suffix compiles, and a concrete
call of `check` does not yield the regex error. -/
theorem regex_error_unreachable_witness :
    "ABCDEF0123".data.all isUpperHexChar = true ∧
      (compileSuffixPattern "ABCDEF0123".data).isSome = true ∧
      check "test" "" ≠ CheckResult.regexError :=
  ⟨by decide, regex_error_unreachable.1 "ABCDEF0123".data (by decide),
    regex_error_unreachable.2 "test" ""⟩

/-- C9: matching is an unanchored substring search, not a per-line
suffix-field comparison: for the single-line body `XX<suffix>:7`, whose
suffix field (37 characters) differs from the computed suffix, `check`
returns the compromised outcome with count 7. -/
theorem check_embedded_suffix_match :
    check "test" "XXFE5CCB19BA61C4C0873D391E987982FBBD3:7" = CheckResult.pwned 7 ∧
      "XXFE5CCB19BA61C4C0873D391E987982FBBD3".data ≠ suffixOf "test" := by
  refine ⟨by decide, by decide⟩

/-- C10: trailing non-digit characters after the count are tolerated and
ignored: for a body `<suffix>:<digits><garbage>` with the garbage starting
with an ASCII non-digit, `check` returns the compromised outcome carrying
the value of the maximal leading digit run, not a `ParseError`. -/
theorem check_trailing_garbage (pw : String) (d g : List Char) (hd : d ≠ [])
    (hdig : d.all Char.isDigit = true) (hv : digitsVal d ≤ 2147483647)
    (hg : headAsciiNonDigit g = true) :
    check pw (String.mk (suffixOf pw ++ ':' :: (d ++ g))) =
      CheckResult.pwned (digitsVal d) := by
  simp only [check_eq_of_findMatch, data_mk, findMatch_head (tryAt_self hd hdig hg),
    parseI32_digits_le hd hdig hv]

/-- Witness for C10: `<suffix>:12abc` yields `Pwned(12)` for credential
`"test"`. -/
theorem check_trailing_garbage_witness :
    "12".data.all Char.isDigit = true ∧
      check "test" (String.mk (suffixOf "test" ++ ':' :: ("12".data ++ "abc".data))) =
        CheckResult.pwned 12 :=
  ⟨by decide,
    check_trailing_garbage "test" "12".data "abc".data (by decide) (by decide) (by decide)
      (by decide)⟩

end Hibp
